import Mathlib

/-!
Shallow embedding of the routing, middleware and cache core of the FULL.js
repository (packages/core/src/routing/{parser,matcher,middleware,router}.ts and
packages/core/src/data/cache.ts), together with theorems settling the frozen
claims about that core.  Strings are modelled as lists of characters (`Str`) so
that the character-level behaviour of the segment regexes can be reasoned about
directly.
-/

namespace FullJs

/-- Strings are modelled as lists of characters. -/
abbrev Str := List Char

/-- JS `path.split('/')`: splits at every `'/'`, keeping empty pieces. -/
def splitSlash : Str → List Str
  | [] => [[]]
  | c :: cs =>
    if c = '/' then [] :: splitSlash cs
    else
      match splitSlash cs with
      | [] => [[c]]
      | s :: ss => (c :: s) :: ss

/-- The segment list of a path: `path.split('/').filter(Boolean)`
(parser.ts line 9 and matcher.ts line 85). -/
def pathSegments (p : Str) : List Str := (splitSlash p).filter (· ≠ [])

/-- Errors produced by `createError` (errors module): a JS `Error` carrying a
`code`, `message`, `details` and `solution` string. -/
structure FullError where
  code : Str
  message : Str
  details : Str
  solution : Str
deriving DecidableEq

/-- Route segments, the tagged union of routing/types.ts (the always-`undefined`
`pattern` field of dynamic/optional segments is omitted). -/
inductive RouteSegment where
  | static (value : Str)
  | dynamic (name : Str)
  | catchAll (name : Str)
  | optional (name : Str)
deriving DecidableEq

/-- Greedy run of `[^\]]+`: split a string at its first `']'`. -/
def spanNonRB : Str → Str × Str
  | [] => ([], [])
  | c :: cs =>
    if c = ']' then ([], c :: cs)
    else
      let p := spanNonRB cs
      (c :: p.1, p.2)

/-- JS regex `/^\[([^\]]+)\]$/` (DYNAMIC_SEGMENT_REGEX): returns the capture
when the whole string is `[` ++ m ++ `]` with `m` nonempty and `]`-free. -/
def dynMatch : Str → Option Str
  | '[' :: rest =>
    let p := spanNonRB rest
    if p.1 ≠ [] ∧ p.2 = [']'] then some p.1 else none
  | _ => none

/-- JS regex `/^\[\[([^\]]+)\]\]$/` (CATCH_ALL_SEGMENT_REGEX). -/
def catchAllMatch : Str → Option Str
  | '[' :: '[' :: rest =>
    let p := spanNonRB rest
    if p.1 ≠ [] ∧ p.2 = [']', ']'] then some p.1 else none
  | _ => none

/-- Tail of the optional regex after `\[\[?`: the capture `([^\]]+)` (greedy,
backtracking only succeeds at the maximal `]`-free run) followed by `\]?\]$`,
i.e. the remainder must be exactly `]` or `]]`. -/
def optTail (cs : Str) : Option Str :=
  let p := spanNonRB cs
  if p.1 ≠ [] ∧ (p.2 = [']'] ∨ p.2 = [']', ']']) then some p.1 else none

/-- JS regex `/^\[\[?([^\]]+)\]?\]$/` (OPTIONAL_SEGMENT_REGEX) including the
backtracking order of the greedy `\[?`: when the second character is `[` the
engine first tries consuming it and falls back to leaving it for the capture. -/
def optMatch : Str → Option Str
  | '[' :: rest =>
    match rest with
    | '[' :: rest2 =>
      match optTail rest2 with
      | some m => some m
      | none => optTail rest
    | _ => optTail rest
  | _ => none

/-- Character class of `/[^a-zA-Z0-9_]/`: valid name characters. -/
def isValidNameChar (c : Char) : Bool :=
  ('a' ≤ c ∧ c ≤ 'z') ∨ ('A' ≤ c ∧ c ≤ 'Z') ∨ ('0' ≤ c ∧ c ≤ '9') ∨ c = '_'

/-- The error thrown by parser.ts `validateSegmentName`. -/
def invalidNameError (name : Str) : FullError :=
  { code := "INVALID_CONFIG".toList
    message := "Invalid route parameter name: ".toList ++ name
    details :=
      "Route parameters must contain only alphanumeric characters and underscores".toList
    solution :=
      "Use only letters, numbers, and underscores in route parameter names".toList }

/-- parser.ts `validateSegmentName`: throws when the name is empty (falsy) or
contains a character outside `[a-zA-Z0-9_]`. -/
def validateSegmentName (name : Str) : Except FullError Unit :=
  if name = [] ∨ name.any (fun c => ¬ isValidNameChar c) then
    .error (invalidNameError name)
  else .ok ()

/-- parser.ts `parseSegment`: dynamic regex first, then catch-all, then
optional, else a static literal. -/
def parseSegment (s : Str) : Except FullError RouteSegment :=
  match dynMatch s with
  | some name => do validateSegmentName name; pure (.dynamic name)
  | none =>
    match catchAllMatch s with
    | some name => do validateSegmentName name; pure (.catchAll name)
    | none =>
      match optMatch s with
      | some name => do validateSegmentName name; pure (.optional name)
      | none => pure (.static s)

/-- Left-to-right classification of the split path components: JS `Array.map`
evaluates `parseSegment` in order and the first thrown error propagates. -/
def parseList : List Str → Except FullError (List RouteSegment)
  | [] => pure []
  | s :: rest => do
    let seg ← parseSegment s
    let segs ← parseList rest
    pure (seg :: segs)

/-- parser.ts `parseRoute`: split on `/`, drop empties, classify each
segment. -/
def parseRoute (path : Str) : Except FullError (List RouteSegment) :=
  parseList (pathSegments path)

/-! Middleware (routing/middleware.ts).  A handler body is modelled by its
observable behaviour: it appends its middleware's name to the execution trace
and then either awaits `next()` and returns (`proceed`), returns without
calling `next()` (`stop`), or throws an `Error` with the given message
(`fail`). -/

/-- Observable behaviour of a middleware handler body. -/
inductive HBehavior where
  | proceed
  | stop
  | fail (msg : Str)
deriving DecidableEq

/-- The optional `phase` tag of routing/types.ts (`unset` = the field is
absent, which `execute` treats like `before`). -/
inductive Phase where
  | before
  | after
  | unset
deriving DecidableEq

/-- A middleware: name, phase tag, and the modelled handler behaviour. -/
structure Middleware where
  name : Str
  phase : Phase := .unset
  behavior : HBehavior := .proceed
deriving DecidableEq

/-- The error built in `executeChain`'s catch block:
`createError({code: MIDDLEWARE_ERROR, message: Middleware '<name>' failed,
details: error.message, solution: ...})`. -/
def mkMiddlewareError (name details : Str) : FullError :=
  { code := "MIDDLEWARE_ERROR".toList
    message := "Middleware '".toList ++ name ++ "' failed".toList
    details := details
    solution := "Check middleware implementation and error handling".toList }

/-- middleware.ts `executeChain`: the `next` continuation runs the handler at
the current index inside a try/catch that wraps any thrown error (including an
already-wrapped error rethrown out of a nested `next()`) into a new
`MIDDLEWARE_ERROR` tagged with THIS frame's middleware name.  The first
component is the execution trace (names in the order handlers started). -/
def runChain : List Middleware → List Str → List Str × Except FullError Unit
  | [], log => (log, .ok ())
  | m :: rest, log =>
    let log1 := log ++ [m.name]
    match m.behavior with
    | .stop => (log1, .ok ())
    | .fail msg => (log1, .error (mkMiddlewareError m.name msg))
    | .proceed =>
      match runChain rest log1 with
      | (log2, .ok _) => (log2, .ok ())
      | (log2, .error e) => (log2, .error (mkMiddlewareError m.name e.message))

/-- middleware.ts `execute`: run the `before`-phase chain (every middleware
whose phase is not `after`), and if it completed without throwing, run the
`after`-phase chain. -/
def executeMiddlewares (ms : List Middleware) (log : List Str) :
    List Str × Except FullError Unit :=
  let bef := ms.filter (fun m => m.phase ≠ .after)
  let aft := ms.filter (fun m => m.phase = .after)
  match runChain bef log with
  | (log1, .ok _) => runChain aft log1
  | (log1, .error e) => (log1, .error e)

/-! Route tree and matcher (routing/router.ts `addRoute`, matcher.ts). -/

/-- Group options of a route config (only the middleware list is relevant to
the core). -/
structure GroupConfig where
  middleware : List Middleware := []
deriving DecidableEq

/-- Route configuration (routing/types.ts `RouteConfig`); the rendering-only
fields (`page`, `layout`, `children`) are omitted as external collaborators. -/
structure RouteConfig where
  path : Str
  middleware : List Middleware := []
  group : Option GroupConfig := none
deriving DecidableEq

/-- Route tree node (routing/types.ts `RouteNode`): a segment, an optional
terminal config, insertion-ordered children keyed by a string discriminator
(a JS `Map`), and a node-scoped middleware list. -/
inductive RouteNode where
  | mk (segment : RouteSegment) (config : Option RouteConfig)
      (children : List (Str × RouteNode)) (middleware : List Middleware)

def RouteNode.segment : RouteNode → RouteSegment
  | .mk s _ _ _ => s

def RouteNode.config : RouteNode → Option RouteConfig
  | .mk _ c _ _ => c

def RouteNode.children : RouteNode → List (Str × RouteNode)
  | .mk _ _ ch _ => ch

def RouteNode.middleware : RouteNode → List Middleware
  | .mk _ _ _ mw => mw

/-- The child key used by `addRoute`:
`segment.type === 'static' ? segment.value : segment.type`. -/
def discr : RouteSegment → Str
  | .static v => v
  | .dynamic _ => "dynamic".toList
  | .catchAll _ => "catchAll".toList
  | .optional _ => "optional".toList

/-- JS `Map.get`: value at the first (unique) matching key. -/
def lookupChild : List (Str × RouteNode) → Str → Option RouteNode
  | [], _ => none
  | (k, n) :: rest, key => if k = key then some n else lookupChild rest key

/-- In-place mutation of the child found at `key` (a JS `Map` keeps the entry's
insertion position when its value object is mutated). -/
def replaceChild : List (Str × RouteNode) → Str → RouteNode → List (Str × RouteNode)
  | [], _, _ => []
  | (k, n) :: rest, key, n' =>
    if k = key then (k, n') :: rest else (k, n) :: replaceChild rest key n'

/-- The group middleware appended by `addRoute` when `config.group` is
present. -/
def groupMiddleware (cfg : RouteConfig) : List Middleware :=
  match cfg.group with
  | some g => g.middleware
  | none => []

/-- The walk/create loop plus terminal assignment of router.ts `addRoute`,
acting on already-parsed segments: descend (creating nodes keyed by `discr`),
then set `config` (last-write-wins) and append the route's own middleware and
any group middleware to the terminal node's middleware list. -/
def insertParsed : RouteNode → List RouteSegment → RouteConfig → RouteNode
  | .mk seg _ ch mw, [], cfg =>
    .mk seg (some cfg) ch (mw ++ (cfg.middleware ++ groupMiddleware cfg))
  | .mk seg c ch mw, s :: rest, cfg =>
    let key := discr s
    match lookupChild ch key with
    | some child => .mk seg c (replaceChild ch key (insertParsed child rest cfg)) mw
    | none => .mk seg c (ch ++ [(key, insertParsed (.mk s none [] []) rest cfg)]) mw

/-- The empty route tree built by the `Router` constructor. -/
def emptyRouteNode : RouteNode := .mk (.static []) none [] []

/-- router.ts `addRoute`: parse the config's path (a parse error is thrown
before the tree is touched), then insert.  Returns the thrown error or unit,
together with the tree state after the call. -/
def addRoute (t : RouteNode) (cfg : RouteConfig) :
    Except FullError Unit × RouteNode :=
  match parseRoute cfg.path with
  | .error e => (.error e, t)
  | .ok segs => (.ok (), insertParsed t segs cfg)

/-- A route tree reachable by a sequence of `addRoute` calls from the empty
tree (failed registrations leave the tree as it was). -/
def buildTree (cfgs : List RouteConfig) : RouteNode :=
  cfgs.foldl (fun t c => (addRoute t c).2) emptyRouteNode

/-- A route match (routing/types.ts `RouteMatch`). -/
structure RouteMatch where
  route : RouteConfig
  params : List (Str × Str)
  score : Nat
deriving DecidableEq

/-- JS object spread update used for params:
if the key exists its value is replaced in place, otherwise the pair is
appended. -/
def objSet : List (Str × Str) → Str → Str → List (Str × Str)
  | [], k, v => [(k, v)]
  | (k0, v0) :: rest, k, v =>
    if k0 = k then (k0, v) :: rest else (k0, v0) :: objSet rest k v

/-- JS `segments.join('/')`. -/
def joinSlash : List Str → Str
  | [] => []
  | [s] => s
  | s :: rest => s ++ '/' :: joinSlash rest

/-- The end-of-path branch of matcher.ts `matchSegments` (lines 106-115): a
node with an attached config becomes a candidate match. -/
def matchEnd (node : RouteNode) (params : List (Str × Str)) (score : Nat) :
    List RouteMatch :=
  match node.config with
  | some c => [⟨c, params, score⟩]
  | none => []

/-- matcher.ts `matchSegments`: depth-first exploration pushing candidate
matches.  At end of path a node with a config becomes a candidate; otherwise
the three passes over `node.children` run in order — static children whose
value equals the current component (+100), dynamic children (+50, binding the
component), catch-all children (+10, binding the join of ALL remaining
components).  The source's catch-all case recurses with an empty segment list,
which immediately takes the end-of-path branch; that call is embedded here
directly as `matchEnd`. -/
def matchSegments (segs : List Str) (node : RouteNode)
    (params : List (Str × Str)) (score : Nat) : List RouteMatch :=
  match segs with
  | [] => matchEnd node params score
  | seg :: rest =>
    let staticMs :=
      (node.children.map (fun p =>
        match p.2.segment with
        | .static v =>
          if v = seg then matchSegments rest p.2 params (score + 100) else []
        | _ => [])).flatten
    let dynMs :=
      (node.children.map (fun p =>
        match p.2.segment with
        | .dynamic name =>
          matchSegments rest p.2 (objSet params name seg) (score + 50)
        | _ => [])).flatten
    let catchMs :=
      (node.children.map (fun p =>
        match p.2.segment with
        | .catchAll name =>
          matchEnd p.2 (objSet params name (joinSlash (seg :: rest))) (score + 10)
        | _ => [])).flatten
    staticMs ++ dynMs ++ catchMs

/-- Stable insertion of a match into a list sorted by descending score: the
inserted element (which precedes the list's elements in the original order)
stays ahead of every element whose score is not strictly larger, so equal
scores keep their original order (the behaviour of JS stable `Array.sort`
with comparator `b.score - a.score`). -/
def insertDesc (m : RouteMatch) : List RouteMatch → List RouteMatch
  | [] => [m]
  | x :: xs => if m.score < x.score then x :: insertDesc m xs else m :: x :: xs

/-- Stable sort by descending score. -/
def sortDesc : List RouteMatch → List RouteMatch
  | [] => []
  | x :: xs => insertDesc x (sortDesc xs)

/-- matcher.ts `matchRoute` after the path split: collect all candidates from
the tree root with empty params and score 0, sort by descending score
(stable), and return the first, if any. -/
def matchRouteSegs (segs : List Str) (t : RouteNode) : Option RouteMatch :=
  (sortDesc (matchSegments segs t [] 0)).head?

/-- matcher.ts `matchRoute`. -/
def matchRoute (pathname : Str) (t : RouteNode) : Option RouteMatch :=
  matchRouteSegs (pathSegments pathname) t

/-! Data cache (data/cache.ts `MemoryCache`, `createCacheEntry`).  Timestamps
and durations are JS numbers; the values that actually occur are rationals or
the `Infinity` sentinel, modelled by `JNum`. -/

/-- A JS number that is either finite (a rational) or `Infinity`. -/
inductive JNum where
  | num (q : ℚ)
  | inf
deriving DecidableEq

/-- Comparison `x > y` for finite `x` and a `JNum` bound `y`
(`x > Infinity` is false). -/
def gtJ (x : ℚ) : JNum → Bool
  | .num q => decide (x > q)
  | .inf => false

/-- JS falsiness of a number (`!ttl`): only `0` is falsy here. -/
def JNum.isFalsy : JNum → Bool
  | .num q => q = 0
  | .inf => false

/-- Multiplication by `0.75` (`Infinity * 0.75 = Infinity`). -/
def JNum.mul075 : JNum → JNum
  | .num q => .num (q * (3 / 4))
  | .inf => .inf

/-- Cache entry (data/types.ts `CacheEntry`): opaque data, creation timestamp,
ttl, tags, stale flag. -/
structure CacheEntry (α : Type) where
  data : α
  timestamp : ℚ
  ttl : JNum
  tags : List Str
  isStale : Bool
deriving DecidableEq

/-- The private state of a `MemoryCache`: the entry map, the pending
revalidation key set, and the in-flight flag (all insertion-ordered). -/
structure CacheState (α : Type) where
  cache : List (Str × CacheEntry α) := []
  revalidationQueue : List Str := []
  isRevalidating : Bool := false
deriving DecidableEq

/-- JS `Map.get` on the entry map. -/
def mapGet {α : Type} : List (Str × CacheEntry α) → Str → Option (CacheEntry α)
  | [], _ => none
  | (k, e) :: rest, key => if k = key then some e else mapGet rest key

/-- JS `Map.set` on the entry map (replace in place or append). -/
def mapSet {α : Type} : List (Str × CacheEntry α) → Str → CacheEntry α →
    List (Str × CacheEntry α)
  | [], key, e => [(key, e)]
  | (k, e0) :: rest, key, e =>
    if k = key then (k, e) :: rest else (k, e0) :: mapSet rest key e

/-- JS `Map.delete` on the entry map. -/
def mapDelete {α : Type} : List (Str × CacheEntry α) → Str →
    List (Str × CacheEntry α)
  | [], _ => []
  | (k, e) :: rest, key =>
    if k = key then rest else (k, e) :: mapDelete rest key

/-- cache.ts `isExpired`: a ttl of exactly `0` never expires; otherwise the
entry is expired when `now - timestamp > ttl`. -/
def isExpired {α : Type} (e : CacheEntry α) (now : ℚ) : Bool :=
  if e.ttl = .num 0 then false else gtJ (now - e.timestamp) e.ttl

/-- cache.ts `isStale`: a falsy ttl (`0`) is never stale; otherwise the entry
is stale when `now - timestamp > ttl * 0.75`. -/
def isStaleAt {α : Type} (e : CacheEntry α) (now : ℚ) : Bool :=
  if e.ttl.isFalsy then false else gtJ (now - e.timestamp) e.ttl.mul075

/-- cache.ts `queueRevalidation`: add the key to the pending set if absent
(the debounce `setTimeout` callback is an external event, not state). -/
def queueRevalidation {α : Type} (st : CacheState α) (key : Str) : CacheState α :=
  if key ∈ st.revalidationQueue then st
  else { st with revalidationQueue := st.revalidationQueue ++ [key] }

/-- cache.ts `get` at wall-clock time `now`: absent keys return `undefined`;
expired entries are deleted and return `undefined`; stale entries are marked
stale in place (the stored object mutates), queued for revalidation, and
returned; otherwise the stored entry is returned unchanged. -/
def getAt {α : Type} (st : CacheState α) (key : Str) (now : ℚ) :
    Option (CacheEntry α) × CacheState α :=
  match mapGet st.cache key with
  | none => (none, st)
  | some e =>
    if isExpired e now then (none, { st with cache := mapDelete st.cache key })
    else if isStaleAt e now then
      let e' := { e with isStale := true }
      (some e', queueRevalidation { st with cache := mapSet st.cache key e' } key)
    else (some e, st)

/-- cache.ts `revalidate`: an immediate no-op when a pass is already in
flight; otherwise the selected entries (all of them, or those carrying any of
the given tags) are each processed exactly once — the per-entry refetch slot
removes the key from the pending set — and the in-flight flag is released.
The second component counts the per-entry refetch tasks executed. -/
def revalidate {α : Type} (st : CacheState α) (tags : Option (List Str)) :
    CacheState α × Nat :=
  if st.isRevalidating then (st, 0)
  else
    let toRevalidate :=
      match tags with
      | some ts => st.cache.filter (fun (p : Str × CacheEntry α) => ts.any (fun t => p.2.tags.contains t))
      | none => st.cache
    let queue := toRevalidate.foldl (fun q (p : Str × CacheEntry α) => q.filter (· ≠ p.1)) st.revalidationQueue
    ({ st with revalidationQueue := queue, isRevalidating := false },
      toRevalidate.length)

/-- cache.ts `getTTLFromStrategy`. -/
def getTTLFromStrategy (strategy : Str) : JNum :=
  if strategy = "no-cache".toList then .num 0
  else if strategy = "force-cache".toList then .inf
  else if strategy = "stale-while-revalidate".toList then .num (60 * 1000)
  else if strategy = "revalidate-on-mount".toList then .num 0
  else .num (300 * 1000)

/-- The `strategy` field of a cache config is either a number or a named
strategy string. -/
inductive CacheStrategy where
  | num (n : JNum)
  | name (s : Str)
deriving DecidableEq

/-- cache.ts `createCacheEntry` at wall-clock time `now`: a fresh, unstale
entry whose ttl is the numeric strategy or the strategy table's value. -/
def createCacheEntry {α : Type} (data : α) (strategy : CacheStrategy)
    (tags : List Str) (now : ℚ) : CacheEntry α :=
  { data := data
    timestamp := now
    ttl := match strategy with
      | .num n => n
      | .name s => getTTLFromStrategy s
    tags := tags
    isStale := false }

/-! Theorems settling the claims. -/

/-- C1: the claim says registering `/files/[[...rest]]` parses `[[...rest]]`
as a catch-all segment and matching `/files/a/b/c` binds `rest` to `a/b/c`.
The code instead throws at registration: the catch-all regex captures the name
`...rest` with the dots, and `validateSegmentName` rejects `.`, so `parseRoute`
fails with the invalid-name error and `addRoute` leaves the tree untouched —
contradicting the parser's own comment that `[[...param]]` is the catch-all
form. -/
theorem c1_catchAll_dots_pattern_throws_at_registration :
    parseRoute "/files/[[...rest]]".toList =
      .error (invalidNameError "...rest".toList) ∧
    (invalidNameError "...rest".toList).message =
      "Invalid route parameter name: ...rest".toList ∧
    addRoute emptyRouteNode { path := "/files/[[...rest]]".toList } =
      (.error (invalidNameError "...rest".toList), emptyRouteNode) := by
  refine ⟨by rfl, by rfl, by rfl⟩

/-- C2 counterexample: with handlers A (before, returns without calling
`next`), B (before), C (after), the claim asserts that neither B nor C runs.
In the code the after-phase chain is executed by a separate `executeChain`
call, so C does run: the trace is exactly `[A, C]` and `execute` resolves. -/
theorem c2_after_phase_still_runs_counterexample :
    executeMiddlewares
      [{ name := "A".toList, phase := .before, behavior := .stop },
       { name := "B".toList, phase := .before, behavior := .proceed },
       { name := "C".toList, phase := .after, behavior := .proceed }] [] =
      (["A".toList, "C".toList], .ok ()) := by
  rfl

/-- C2 amended: for handlers A (before), B (before), C (after) that all call
`next`, execution order is exactly A, B, C; if A returns without invoking
`next`, B never runs but C still runs (the after phase is a separate chain,
started because the before chain completed without error), and `execute`
completes without error with trace A, C. -/
theorem c2_middleware_order_and_halt_amended (a b c : Str) :
    executeMiddlewares
      [{ name := a, phase := .before, behavior := .proceed },
       { name := b, phase := .before, behavior := .proceed },
       { name := c, phase := .after, behavior := .proceed }] [] =
      ([a, b, c], .ok ()) ∧
    executeMiddlewares
      [{ name := a, phase := .before, behavior := .stop },
       { name := b, phase := .before, behavior := .proceed },
       { name := c, phase := .after, behavior := .proceed }] [] =
      ([a, c], .ok ()) := by
  constructor <;> rfl

/-- C6: the claim says an entry stored with ttl 0 is not served as a fresh
cached value on a later read (ttl 0 = do-not-cache / revalidate immediately).
In the code `isExpired` returns false for ttl 0 and `isStale` treats the falsy
ttl as never stale, so a `no-cache` entry is served fresh forever: evaluating
`get` far in the future returns the entry unstale, evicts nothing and queues
nothing — while the `Infinity` sentinel part of the claim (never expired, never
stale by time) does hold. -/
theorem c6_ttl_zero_served_fresh_forever :
    (createCacheEntry (α := Nat) 7 (.name "no-cache".toList) [] 0).ttl = .num 0 ∧
    getAt { cache := [("k".toList, createCacheEntry (α := Nat) 7 (.name "no-cache".toList) [] 0)] }
        "k".toList 1000000 =
      (some (createCacheEntry (α := Nat) 7 (.name "no-cache".toList) [] 0),
       { cache := [("k".toList, createCacheEntry (α := Nat) 7 (.name "no-cache".toList) [] 0)] }) ∧
    (createCacheEntry (α := Nat) 7 (.name "no-cache".toList) [] 0).isStale = false ∧
    (∀ now : ℚ,
      isExpired (createCacheEntry (α := Nat) 7 (.name "force-cache".toList) [] 0) now = false ∧
      isStaleAt (createCacheEntry (α := Nat) 7 (.name "force-cache".toList) [] 0) now = false) := by
  refine ⟨by rfl, by decide, by rfl, ?_⟩
  intro now
  constructor
  · simp [isExpired, createCacheEntry, getTTLFromStrategy, gtJ]
  · simp [isStaleAt, createCacheEntry, getTTLFromStrategy, gtJ, JNum.isFalsy, JNum.mul075]

/-- C8: the claim says the `addRoute`/`matchRoute` round trip succeeds for
every segment kind, in particular that a pattern with an optional segment
matches both with the component present and absent.  In the code the optional
pattern `[[opt]]` is captured by the catch-all regex first (so no optional
segment is ever produced from it), and `matchSegments` has no optional case at
all, so a tree holding a genuine optional segment matches neither the
absent nor the present form; the optional-absent round trip for `/a/[[opt]]`
returns no match. -/
theorem c8_optional_roundtrip_fails :
    parseSegment "[[opt]]".toList = .ok (.catchAll "opt".toList) ∧
    matchRoute "/a".toList (addRoute emptyRouteNode { path := "/a/[[opt]]".toList }).2 = none ∧
    (matchRoute "/a".toList
        (insertParsed emptyRouteNode [.static "a".toList, .optional "o".toList]
          { path := "/a/x".toList }) = none ∧
      matchRoute "/a/v".toList
        (insertParsed emptyRouteNode [.static "a".toList, .optional "o".toList]
          { path := "/a/x".toList }) = none) := by
  refine ⟨by rfl, by rfl, by rfl, by rfl⟩

/-- The error that `executeChain` actually produces when the handlers named
`ns` are in flight (each having called `next`) and the innermost handler named
`fname` throws an `Error` with message `msg`: every enclosing frame re-wraps
the error escaping its `await handler(...)` into a fresh MIDDLEWARE_ERROR
tagged with its own middleware's name, with `details` set to the message of
the error it caught. -/
def chainError : List Str → Str → Str → FullError
  | [], fname, msg => mkMiddlewareError fname msg
  | n :: rest, fname, msg => mkMiddlewareError n (chainError rest fname msg).message

/-- C3 counterexample: chain A (before, calls `next`), B (before, throws
`boom`), C (after).  The claim says `execute` rejects with a MiddlewareError
attributed to B (the failing handler) carrying the original cause.  The code
wraps B's MiddlewareError a second time in A's frame: the rejection is
attributed to A, its details are B's wrapper message, and the original cause
`boom` is no longer in the error. -/
theorem c3_error_attributed_to_outermost_counterexample :
    executeMiddlewares
      [{ name := "A".toList, phase := .before, behavior := .proceed },
       { name := "B".toList, phase := .before, behavior := .fail "boom".toList },
       { name := "C".toList, phase := .after, behavior := .proceed }] [] =
      (["A".toList, "B".toList],
        .error (mkMiddlewareError "A".toList "Middleware 'B' failed".toList)) ∧
    mkMiddlewareError "A".toList "Middleware 'B' failed".toList ≠
      mkMiddlewareError "B".toList "boom".toList := by
  exact ⟨by rfl, by decide⟩

/-- Helper for the amended C3: the single-phase chain behaviour when a prefix
of handlers all call `next` and the next handler throws. -/
theorem runChain_fail (pre post : List Middleware) (fname msg : Str)
    (ph : Phase) (log : List Str)
    (hpre : ∀ m ∈ pre, m.behavior = .proceed) :
    runChain (pre ++ { name := fname, phase := ph, behavior := .fail msg } :: post) log =
      (log ++ pre.map Middleware.name ++ [fname],
        .error (chainError (pre.map Middleware.name) fname msg)) := by
  induction pre generalizing log with
  | nil => simp [runChain, chainError]
  | cons m rest ih =>
    have hm : m.behavior = .proceed := hpre m (by simp)
    have hrest : ∀ m' ∈ rest, m'.behavior = .proceed := fun m' h => hpre m' (by simp [h])
    have ih' := ih (log ++ [m.name]) hrest
    simp only [List.cons_append, runChain, hm, List.append_eq] at ih' ⊢
    rw [ih']
    simp [chainError, mkMiddlewareError]

/-- C3 amended: in a chain whose failing phase holds the handlers
`pre ++ [f] ++ post` (all `before`-phase), where every handler in `pre` calls
`next` and `f` throws `msg`, `execute` rejects with a MiddlewareError — but
the caught error is re-wrapped once per enclosing in-flight frame, so the
error is attributed to the FIRST handler of the phase (the original cause
survives only when the failing handler is the phase's first), and the trace
stops at `f`: handlers after the failing one (and the after phase) never
run. -/
theorem c3_error_wrapping_amended (pre post : List Middleware) (fname msg : Str)
    (hpre : ∀ m ∈ pre, m.behavior = .proceed)
    (hphase : ∀ m ∈ pre, m.phase = .before)
    (hpost : ∀ m ∈ post, m.phase = .before) :
    executeMiddlewares
        (pre ++ { name := fname, phase := .before, behavior := .fail msg } :: post) [] =
      (pre.map Middleware.name ++ [fname],
        .error (chainError (pre.map Middleware.name) fname msg)) ∧
    (chainError (pre.map Middleware.name) fname msg).message =
      "Middleware '".toList ++ (pre.headD { name := fname }).name ++ "' failed".toList := by
  constructor
  · have hfilter1 :
        (pre ++ { name := fname, phase := .before, behavior := .fail msg } :: post).filter
          (fun m => m.phase ≠ .after) =
        pre ++ { name := fname, phase := .before, behavior := .fail msg } :: post := by
      rw [List.filter_eq_self]
      intro m hm
      rcases List.mem_append.mp hm with h | h
      · simp [hphase m h]
      · rcases List.mem_cons.mp h with h | h
        · simp [h]
        · simp [hpost m h]
    simp only [executeMiddlewares, hfilter1,
      runChain_fail pre post fname msg .before [] hpre, List.nil_append]
  · cases pre with
    | nil => simp [chainError, mkMiddlewareError]
    | cons m rest => simp [chainError, mkMiddlewareError]

/-- Witness for the amended C3 at a concrete chain: A calls `next`, B throws
`boom`, C never runs; the rejection is attributed to A. -/
theorem c3_error_wrapping_amended_witness :
    executeMiddlewares
        [{ name := "A".toList, phase := .before, behavior := .proceed },
         { name := "B".toList, phase := .before, behavior := .fail "boom".toList },
         { name := "C".toList, phase := .before, behavior := .proceed }] [] =
      (["A".toList, "B".toList],
        .error (chainError ["A".toList] "B".toList "boom".toList)) ∧
    (chainError ["A".toList] "B".toList "boom".toList).message =
      "Middleware 'A' failed".toList := by
  have h := c3_error_wrapping_amended
    [{ name := "A".toList, phase := .before, behavior := .proceed }]
    [{ name := "C".toList, phase := .before, behavior := .proceed }]
    "B".toList "boom".toList
    (by intro m hm; simp at hm; simp [hm])
    (by intro m hm; simp at hm; simp [hm])
    (by intro m hm; simp at hm; simp [hm])
  simpa using h

/-- The greedy `[^\]]+` run stops exactly at the first `']'`. -/
theorem spanNonRB_append (X rest : Str) (h : ']' ∉ X) :
    spanNonRB (X ++ ']' :: rest) = (X, ']' :: rest) := by
  induction X with
  | nil => simp [spanNonRB]
  | cons c cs ih =>
    have hc : c ≠ ']' := fun hc => h (by simp [hc])
    have hcs : ']' ∉ cs := fun hm => h (by simp [hm])
    simp [spanNonRB, hc, ih hcs]

/-- Names containing a character outside the valid class fail validation. -/
theorem validateSegmentName_bad (X : Str)
    (hbad : ∃ c ∈ X, isValidNameChar c = false) :
    validateSegmentName X = .error (invalidNameError X) := by
  unfold validateSegmentName
  split
  · rfl
  · rename_i hcond
    exfalso
    apply hcond
    rcases hbad with ⟨c, hc, hv⟩
    right
    simp only [List.any_eq_true]
    exact ⟨c, hc, by simp [hv]⟩

/-- A bracketed segment `[X]` with a nonempty, `]`-free, invalid name throws
from the dynamic branch of `parseSegment`. -/
theorem parseSegment_bracket_invalid (X : Str) (hne : X ≠ []) (hrb : ']' ∉ X)
    (hbad : ∃ c ∈ X, isValidNameChar c = false) :
    parseSegment ('[' :: (X ++ [']'])) = .error (invalidNameError X) := by
  have hdyn : dynMatch ('[' :: (X ++ [']'])) = some X := by
    have h0 : spanNonRB (X ++ ']' :: []) = (X, ']' :: []) := spanNonRB_append X [] hrb
    simp [dynMatch, h0, hne]
  simp [parseSegment, hdyn, validateSegmentName_bad X hbad]

/-- A double-bracketed segment `[[X]]` with a nonempty, `]`-free, invalid name
throws from the catch-all branch of `parseSegment`. -/
theorem parseSegment_dbracket_invalid (X : Str) (hne : X ≠ []) (hrb : ']' ∉ X)
    (hbad : ∃ c ∈ X, isValidNameChar c = false) :
    parseSegment ('[' :: '[' :: (X ++ [']', ']'])) = .error (invalidNameError X) := by
  have hspan : spanNonRB (X ++ ']' :: [']']) = (X, ']' :: [']']) :=
    spanNonRB_append X [']'] hrb
  have hdyn : dynMatch ('[' :: '[' :: (X ++ [']', ']'])) = none := by
    have hlb : ('[' : Char) ≠ ']' := by decide
    simp [dynMatch, spanNonRB, hlb, hspan]
  have hca : catchAllMatch ('[' :: '[' :: (X ++ [']', ']'])) = some X := by
    simp [catchAllMatch, hspan, hne]
  simp [parseSegment, hdyn, hca, validateSegmentName_bad X hbad]

/-- Every error `parseSegment` can throw is the invalid-name error, whose code
is `INVALID_CONFIG`. -/
theorem parseSegment_error_code (s : Str) (e : FullError)
    (h : parseSegment s = .error e) : e.code = "INVALID_CONFIG".toList := by
  have hval : ∀ (name : Str), validateSegmentName name = .error e →
      e.code = "INVALID_CONFIG".toList := by
    intro name hv
    unfold validateSegmentName at hv
    split at hv
    · cases hv
      rfl
    · cases hv
  unfold parseSegment at h
  split at h
  · rename_i name hm
    cases hv : validateSegmentName name with
    | ok u => rw [hv] at h; cases h
    | error e' => rw [hv] at h; cases h; exact hval name hv
  · split at h
    · rename_i name hm
      cases hv : validateSegmentName name with
      | ok u => rw [hv] at h; cases h
      | error e' => rw [hv] at h; cases h; exact hval name hv
    · split at h
      · rename_i name hm
        cases hv : validateSegmentName name with
        | ok u => rw [hv] at h; cases h
        | error e' => rw [hv] at h; cases h; exact hval name hv
      · cases h

/-- If any component of the list fails to classify, the whole left-to-right
classification throws (the thrown error being some invalid-name error). -/
theorem parseList_error (l : List Str) (s : Str) (hmem : s ∈ l)
    (herr : ∃ e0, parseSegment s = .error e0) :
    ∃ e, parseList l = .error e ∧ e.code = "INVALID_CONFIG".toList := by
  induction l with
  | nil => cases hmem
  | cons a rest ih =>
    cases ha : parseSegment a with
    | error e1 =>
      refine ⟨e1, ?_, parseSegment_error_code a e1 ha⟩
      simp only [parseList, ha]
      rfl
    | ok seg =>
      rcases List.mem_cons.mp hmem with rfl | hmem'
      · rcases herr with ⟨e0, he0⟩
        rw [ha] at he0
        cases he0
      · rcases ih hmem' with ⟨e, he, hcode⟩
        refine ⟨e, ?_, hcode⟩
        simp only [parseList, ha, he]
        rfl

/-- C9 counterexample: the claim says a bracketed segment with an EMPTY name
makes `addRoute` raise `InvalidSegmentName`.  The segment `[]` matches none of
the three segment regexes (each capture needs at least one character), so the
code classifies it as a static literal and `addRoute "/[]"` succeeds, mutating
the tree. -/
theorem c9_empty_name_registers_as_static_counterexample :
    addRoute emptyRouteNode { path := "/[]".toList } =
      (.ok (),
        .mk (.static []) none
          [("[]".toList,
            .mk (.static "[]".toList) (some { path := "/[]".toList }) [] [])] []) := by
  rfl

/-- C9 amended: for every tree state and every config whose path contains a
bracketed segment `[X]` or `[[X]]` whose name `X` is nonempty, `]`-free and
contains a character outside `[A-Za-z0-9_]`, `addRoute` raises the
invalid-name error (code INVALID_CONFIG) and returns the tree exactly as it
was (the path is parsed in full before any node is touched); a bracketed
segment with an empty name, however, registers as a static literal. -/
theorem c9_invalid_name_atomic_amended (t : RouteNode) (cfg : RouteConfig) (X : Str)
    (hmem : ('[' :: (X ++ [']'])) ∈ pathSegments cfg.path ∨
      ('[' :: '[' :: (X ++ [']', ']'])) ∈ pathSegments cfg.path)
    (hne : X ≠ []) (hrb : ']' ∉ X)
    (hbad : ∃ c ∈ X, isValidNameChar c = false) :
    ∃ e, addRoute t cfg = (.error e, t) ∧ e.code = "INVALID_CONFIG".toList := by
  have herr : ∃ e, parseRoute cfg.path = .error e ∧ e.code = "INVALID_CONFIG".toList := by
    rcases hmem with hmem | hmem
    · exact parseList_error _ _ hmem ⟨_, parseSegment_bracket_invalid X hne hrb hbad⟩
    · exact parseList_error _ _ hmem ⟨_, parseSegment_dbracket_invalid X hne hrb hbad⟩
  rcases herr with ⟨e, he, hcode⟩
  exact ⟨e, by simp [addRoute, he], hcode⟩

/-- Witness for the amended C9: registering `/[na me]` on the empty tree fails
with the invalid-name error and leaves the tree untouched. -/
theorem c9_invalid_name_atomic_amended_witness :
    ∃ e, addRoute emptyRouteNode { path := "/[na me]".toList } = (.error e, emptyRouteNode) ∧
      e.code = "INVALID_CONFIG".toList :=
  c9_invalid_name_atomic_amended emptyRouteNode { path := "/[na me]".toList }
    "na me".toList (Or.inl (by decide)) (by decide) (by decide)
    ⟨' ', by decide, by decide⟩

/-- The cache entry used by the C5 witness. -/
def entK : CacheEntry Nat :=
  { data := 7, timestamp := 0, ttl := .num 1000, tags := [], isStale := false }

/-- The one-entry cache state used by the C5 witness. -/
def stK : CacheState Nat := { cache := [("k".toList, entK)] }

/-- The ttl-0 cache entry of the C5 counterexample. -/
def entZ : CacheEntry Nat :=
  { data := 7, timestamp := 0, ttl := .num 0, tags := [], isStale := false }

/-- The one-entry cache state of the C5 counterexample. -/
def stZ : CacheState Nat := { cache := [("k".toList, entZ)] }

/-- C5 counterexample: a stored entry with ttl 0 (timestamp 0, unstale) read
at time 5.  The claim's staleness condition `now - timestamp > 0.75 * ttl`
holds (5 > 0) and the entry is not expired, so the claim requires `get` to
return the entry marked stale and to enqueue the key; the code's `isStale`
treats the falsy ttl as never stale, so `get` returns the entry unmarked and
enqueues nothing. -/
theorem c5_ttl_zero_stale_clause_counterexample :
    gtJ ((5 : ℚ) - entZ.timestamp) (entZ.ttl.mul075) = true ∧
    isExpired entZ (5 : ℚ) = false ∧
    getAt stZ "k".toList 5 = (some entZ, stZ) ∧
    entZ.isStale = false ∧
    stZ.revalidationQueue = [] := by
  refine ⟨?_, ?_, ?_, by rfl, by rfl⟩
  · norm_num [entZ, gtJ, JNum.mul075]
  · norm_num [entZ, isExpired]
  · norm_num [getAt, stZ, entZ, mapGet, isExpired, isStaleAt, JNum.isFalsy]

/-- C5 amended: the claimed `get` behaviour holds for entries with a finite
positive ttl (the ttl-0 case diverges, see the counterexample): an absent key
returns absent and leaves the state unchanged; an expired entry (`now -
timestamp > ttl`) is evicted and absent is returned; a stale, unexpired entry
(`now - timestamp > 0.75 * ttl` but not past ttl) is returned with its stale
flag set, stored back marked stale, and its key is enqueued for revalidation;
otherwise an entry stored unstale (as `createCacheEntry` stores them) is
returned unchanged with its stale flag clear. -/
theorem c5_get_semantics_amended (st : CacheState Nat) (key : Str) (now : ℚ) :
    (mapGet st.cache key = none → getAt st key now = (none, st)) ∧
    (∀ e q, mapGet st.cache key = some e → e.ttl = .num q → 0 < q →
      now - e.timestamp > q →
      getAt st key now = (none, { st with cache := mapDelete st.cache key })) ∧
    (∀ e q, mapGet st.cache key = some e → e.ttl = .num q → 0 < q →
      now - e.timestamp > q * (3 / 4) → ¬(now - e.timestamp > q) →
      getAt st key now =
        (some { e with isStale := true },
          queueRevalidation
            { st with cache := mapSet st.cache key { e with isStale := true } } key) ∧
      key ∈ (getAt st key now).2.revalidationQueue) ∧
    (∀ e q, mapGet st.cache key = some e → e.ttl = .num q → 0 < q →
      ¬(now - e.timestamp > q * (3 / 4)) → e.isStale = false →
      getAt st key now = (some e, st)) := by
  refine ⟨?_, ?_, ?_, ?_⟩
  · intro h
    simp [getAt, h]
  · intro e q hg ht hq hexp
    have hex : isExpired e now = true := by
      unfold isExpired
      rw [ht]
      split
      · rename_i hz
        exfalso
        injection hz with h0
        exact ne_of_gt hq h0
      · simp only [gtJ]
        exact decide_eq_true hexp
    simp [getAt, hg, hex]
  · intro e q hg ht hq hst hnexp
    have hex : isExpired e now = false := by
      unfold isExpired
      rw [ht]
      split
      · rfl
      · simp only [gtJ]
        exact decide_eq_false hnexp
    have hf : (JNum.num q).isFalsy = false := by
      simp only [JNum.isFalsy, decide_eq_false_iff_not]
      exact ne_of_gt hq
    have hstale : isStaleAt e now = true := by
      unfold isStaleAt
      rw [ht, hf]
      simp only [Bool.false_eq_true, if_false, JNum.mul075, gtJ]
      exact decide_eq_true hst
    have hres : getAt st key now =
        (some { e with isStale := true },
          queueRevalidation
            { st with cache := mapSet st.cache key { e with isStale := true } } key) := by
      simp [getAt, hg, hex, hstale]
    refine ⟨hres, ?_⟩
    rw [hres]
    simp only [queueRevalidation]
    split
    · rename_i hin
      exact hin
    · simp
  · intro e q hg ht hq hnst hunstale
    have h34 : q * (3 / 4) ≤ q := by nlinarith
    have hnexp : ¬(now - e.timestamp > q) := fun hgt =>
      hnst (lt_of_le_of_lt h34 hgt)
    have hex : isExpired e now = false := by
      unfold isExpired
      rw [ht]
      split
      · rfl
      · simp only [gtJ]
        exact decide_eq_false hnexp
    have hf : (JNum.num q).isFalsy = false := by
      simp only [JNum.isFalsy, decide_eq_false_iff_not]
      exact ne_of_gt hq
    have hstale : isStaleAt e now = false := by
      unfold isStaleAt
      rw [ht, hf]
      simp only [Bool.false_eq_true, if_false, JNum.mul075, gtJ]
      exact decide_eq_false hnst
    simp [getAt, hg, hex, hstale]

/-- Witness for the amended C5: all four clauses evaluated on concrete states
(a missing key; an entry with ttl 1000 read at 1500 is evicted; read at 800 is
returned stale and enqueued; read at 100 is returned fresh). -/
theorem c5_get_semantics_amended_witness :
    getAt ({ } : CacheState Nat) "k".toList 0 = (none, { }) ∧
    getAt stK "k".toList 1500 = (none, { stK with cache := mapDelete stK.cache "k".toList }) ∧
    (getAt stK "k".toList 800 =
      (some { entK with isStale := true },
        queueRevalidation
          { stK with cache := mapSet stK.cache "k".toList { entK with isStale := true } }
          "k".toList) ∧
      "k".toList ∈ (getAt stK "k".toList 800).2.revalidationQueue) ∧
    getAt stK "k".toList 100 = (some entK, stK) := by
  refine ⟨?_, ?_, ?_, ?_⟩
  · exact (c5_get_semantics_amended { } "k".toList 0).1 (by decide)
  · exact (c5_get_semantics_amended stK "k".toList 1500).2.1 entK 1000
      (by decide) (by decide) (by norm_num) (by norm_num [entK])
  · exact (c5_get_semantics_amended stK "k".toList 800).2.2.1 entK 1000
      (by decide) (by decide) (by norm_num) (by norm_num [entK]) (by norm_num [entK])
  · exact (c5_get_semantics_amended stK "k".toList 100).2.2.2 entK 1000
      (by decide) (by decide) (by norm_num) (by norm_num [entK]) (by decide)

/-- C7: while a revalidation pass is in flight (`isRevalidating` set), a
second `revalidate` call is an immediate no-op: the state — cache contents and
pending queue included — is returned untouched and zero per-entry refetches
run; and a pass that does start executes exactly one refetch per distinct key
it selects (all keys of the map for an untagged pass), never touching the
entry map itself. -/
theorem c7_concurrent_revalidate_noop (st : CacheState Nat)
    (tags : Option (List Str))
    (hin : st.isRevalidating = true) :
    revalidate st tags = (st, 0) ∧
    (∀ st' : CacheState Nat, st'.isRevalidating = false →
      (revalidate st' none).2 = st'.cache.length ∧
      (revalidate st' none).1.cache = st'.cache) := by
  constructor
  · simp [revalidate, hin]
  · intro st' h
    simp [revalidate, h]

/-- The two-entry cache state used by the C7 witness, captured mid-pass. -/
def stAB : CacheState Nat :=
  { cache :=
      [("a".toList, { data := 1, timestamp := 0, ttl := .num 1000, tags := [], isStale := false }),
        ("b".toList, { data := 2, timestamp := 0, ttl := .num 1000, tags := [], isStale := false })],
    revalidationQueue := ["a".toList],
    isRevalidating := true }

/-- Witness for C7: with the in-flight flag set on a concrete two-entry cache,
`revalidate` returns the state unchanged with zero refetches; a fresh pass on
the same cache with the flag clear refetches exactly its two distinct keys. -/
theorem c7_concurrent_revalidate_noop_witness :
    revalidate stAB none = (stAB, 0) ∧
    (revalidate { stAB with isRevalidating := false } none).2 =
      ({ stAB with isRevalidating := false } : CacheState Nat).cache.length ∧
    ({ stAB with isRevalidating := false } : CacheState Nat).cache.length = 2 := by
  have h := c7_concurrent_revalidate_noop stAB none rfl
  exact ⟨h.1, (h.2 { stAB with isRevalidating := false } rfl).1, by decide⟩


/-- True exactly on dynamic segments. -/
def isDynamicSeg : RouteSegment → Bool
  | .dynamic _ => true
  | _ => false

/-- True exactly on optional segments. -/
def isOptionalSeg : RouteSegment → Bool
  | .optional _ => true
  | _ => false

/-- True exactly on catch-all segments. -/
def isCatchAllSeg : RouteSegment → Bool
  | .catchAll _ => true
  | _ => false

/-- Structural invariant maintained by `addRoute`: at every node the child
keys are pairwise distinct (a JS `Map`) and each child sits under the key
`discr` of its own segment. -/
inductive GoodTree : RouteNode → Prop where
  | mk : ∀ (seg : RouteSegment) (cfg : Option RouteConfig)
      (ch : List (Str × RouteNode)) (mw : List Middleware),
      (ch.map Prod.fst).Nodup →
      (∀ p ∈ ch, p.1 = discr (RouteNode.segment p.2)) →
      (∀ p ∈ ch, GoodTree p.2) →
      GoodTree (.mk seg cfg ch mw)

/-- The claimed invariant: every node of the tree has at most one dynamic
child, at most one optional child and at most one catch-all child. -/
inductive AtMostOnePerKind : RouteNode → Prop where
  | mk : ∀ (seg : RouteSegment) (cfg : Option RouteConfig)
      (ch : List (Str × RouteNode)) (mw : List Middleware),
      (ch.filter (fun p => isDynamicSeg (RouteNode.segment p.2))).length ≤ 1 →
      (ch.filter (fun p => isOptionalSeg (RouteNode.segment p.2))).length ≤ 1 →
      (ch.filter (fun p => isCatchAllSeg (RouteNode.segment p.2))).length ≤ 1 →
      (∀ p ∈ ch, AtMostOnePerKind p.2) →
      AtMostOnePerKind (.mk seg cfg ch mw)

/-- Inserting a route never changes a node's own segment. -/
theorem insertParsed_segment (t : RouteNode) (segs : List RouteSegment)
    (cfg : RouteConfig) : (insertParsed t segs cfg).segment = t.segment := by
  cases t with
  | mk seg c ch mw =>
    cases segs with
    | nil => rfl
    | cons s rest =>
      simp only [insertParsed]
      split <;> rfl

/-- A successful child lookup is a membership. -/
theorem lookupChild_mem (ch : List (Str × RouteNode)) (key : Str) (n : RouteNode)
    (h : lookupChild ch key = some n) : (key, n) ∈ ch := by
  induction ch with
  | nil => cases h
  | cons a rest ih =>
    obtain ⟨k, v⟩ := a
    by_cases hk : k = key
    · subst hk
      simp only [lookupChild, if_pos rfl] at h
      cases h
      exact List.mem_cons_self _ _
    · simp only [lookupChild, if_neg hk] at h
      exact List.mem_cons_of_mem _ (ih h)

/-- A failed child lookup means the key is absent. -/
theorem lookupChild_none (ch : List (Str × RouteNode)) (key : Str)
    (h : lookupChild ch key = none) : key ∉ ch.map Prod.fst := by
  induction ch with
  | nil => simp
  | cons a rest ih =>
    obtain ⟨k, v⟩ := a
    by_cases hk : k = key
    · subst hk
      simp [lookupChild] at h
    · simp only [lookupChild, if_neg hk] at h
      simp only [List.map_cons, List.mem_cons]
      rintro (rfl | hm)
      · exact hk rfl
      · exact ih h hm

/-- Replacing a child's value keeps the key list. -/
theorem replaceChild_map_fst (ch : List (Str × RouteNode)) (key : Str)
    (n' : RouteNode) : (replaceChild ch key n').map Prod.fst = ch.map Prod.fst := by
  induction ch with
  | nil => rfl
  | cons a rest ih =>
    obtain ⟨k, v⟩ := a
    by_cases hk : k = key
    · simp [replaceChild, hk]
    · simp [replaceChild, hk, ih]

/-- Members of the replaced child list are the new pair or old members. -/
theorem replaceChild_mem (ch : List (Str × RouteNode)) (key : Str)
    (n' : RouteNode) (p : Str × RouteNode) (hp : p ∈ replaceChild ch key n') :
    p = (key, n') ∨ p ∈ ch := by
  induction ch with
  | nil => cases hp
  | cons a rest ih =>
    obtain ⟨k, v⟩ := a
    by_cases hk : k = key
    · subst hk
      simp only [replaceChild, if_pos rfl] at hp
      rcases List.mem_cons.mp hp with rfl | hm
      · exact Or.inl rfl
      · exact Or.inr (List.mem_cons_of_mem _ hm)
    · simp only [replaceChild, if_neg hk] at hp
      rcases List.mem_cons.mp hp with rfl | hm
      · exact Or.inr (List.mem_cons_self _ _)
      · rcases ih hm with h | h
        · exact Or.inl h
        · exact Or.inr (List.mem_cons_of_mem _ h)

/-- `insertParsed` preserves the structural invariant. -/
theorem insertParsed_good (segs : List RouteSegment) :
    ∀ (t : RouteNode) (cfg : RouteConfig), GoodTree t →
      GoodTree (insertParsed t segs cfg) := by
  induction segs with
  | nil =>
    intro t cfg ht
    cases ht with
    | mk seg c ch mw hnodup hdisc hch =>
      exact GoodTree.mk _ _ _ _ hnodup hdisc hch
  | cons s rest ih =>
    intro t cfg ht
    cases ht with
    | mk seg c ch mw hnodup hdisc hch =>
      simp only [insertParsed]
      cases hl : lookupChild ch (discr s) with
      | some child =>
        refine GoodTree.mk _ _ _ _ ?_ ?_ ?_
        · rw [replaceChild_map_fst]
          exact hnodup
        · intro p hp
          rcases replaceChild_mem _ _ _ _ hp with rfl | hm
          · have hmem := lookupChild_mem _ _ _ hl
            have hkey := hdisc _ hmem
            simp only [insertParsed_segment]
            exact hkey
          · exact hdisc _ hm
        · intro p hp
          rcases replaceChild_mem _ _ _ _ hp with rfl | hm
          · exact ih child cfg (hch _ (lookupChild_mem _ _ _ hl))
          · exact hch _ hm
      | none =>
        refine GoodTree.mk _ _ _ _ ?_ ?_ ?_
        · simp only [List.map_append, List.map_cons, List.map_nil]
          rw [List.nodup_append]
          refine ⟨hnodup, List.nodup_singleton _, ?_⟩
          intro a ha hb
          simp only [List.mem_singleton] at hb
          subst hb
          exact lookupChild_none _ _ hl ha
        · intro p hp
          rcases List.mem_append.mp hp with hm | hm
          · exact hdisc _ hm
          · simp only [List.mem_singleton] at hm
            subst hm
            show discr s =
              discr (RouteNode.segment (insertParsed (RouteNode.mk s none [] []) rest cfg))
            rw [insertParsed_segment]
            rfl
        · intro p hp
          rcases List.mem_append.mp hp with hm | hm
          · exact hch _ hm
          · simp only [List.mem_singleton] at hm
            subst hm
            exact ih _ cfg (GoodTree.mk _ _ _ _ (by simp) (by simp) (by simp))

/-- Every tree built by `addRoute` calls satisfies the structural invariant. -/
theorem buildTree_good (cfgs : List RouteConfig) : GoodTree (buildTree cfgs) := by
  have hbase : GoodTree emptyRouteNode :=
    GoodTree.mk _ _ _ _ (by simp) (by simp) (by simp)
  suffices h : ∀ t : RouteNode, GoodTree t →
      GoodTree (cfgs.foldl (fun t c => (addRoute t c).2) t) by
    exact h emptyRouteNode hbase
  induction cfgs with
  | nil => intro t ht; exact ht
  | cons c rest ih =>
    intro t ht
    simp only [List.foldl_cons]
    apply ih
    unfold addRoute
    cases parseRoute c.path with
    | error e => exact ht
    | ok segs => exact insertParsed_good segs t c ht

/-- A duplicate-free key list in which every selected child shares one fixed
key can select at most one child. -/
theorem filter_shared_key_le_one (ch : List (Str × RouteNode)) (K : Str)
    (f : RouteSegment → Bool) (hnodup : (ch.map Prod.fst).Nodup)
    (hkey : ∀ p ∈ ch, f (RouteNode.segment p.2) = true → p.1 = K) :
    (ch.filter (fun p => f (RouteNode.segment p.2))).length ≤ 1 := by
  induction ch with
  | nil => simp
  | cons a rest ih =>
    simp only [List.map_cons, List.nodup_cons] at hnodup
    obtain ⟨hnotin, hnodup'⟩ := hnodup
    by_cases hf : f (RouteNode.segment a.2) = true
    · have hK : a.1 = K := hkey a (List.mem_cons_self _ _) hf
      have hrest : rest.filter (fun p => f (RouteNode.segment p.2)) = [] := by
        rw [List.filter_eq_nil_iff]
        intro p hp hfp
        have : p.1 = K := hkey p (List.mem_cons_of_mem _ hp) (by simpa using hfp)
        apply hnotin
        rw [hK, ← this]
        exact List.mem_map_of_mem Prod.fst hp
      simp [List.filter_cons, hf, hrest]
    · simp only [List.filter_cons, hf, if_false]
      exact ih hnodup' fun p hp hfp => hkey p (List.mem_cons_of_mem _ hp) hfp

/-- The structural invariant implies the claimed one-child-per-kind bound at
every node. -/
theorem goodTree_atMostOne (t : RouteNode) (h : GoodTree t) : AtMostOnePerKind t := by
  induction h with
  | mk seg cfg ch mw hnodup hdisc hch ih =>
    refine AtMostOnePerKind.mk _ _ _ _ ?_ ?_ ?_ ?_
    · refine filter_shared_key_le_one ch "dynamic".toList isDynamicSeg hnodup ?_
      intro p hp hf
      rw [hdisc p hp]
      rcases hseg : RouteNode.segment p.2 with v | name | name | name <;> rw [hseg] at hf
      · simp [isDynamicSeg] at hf
      · rfl
      · simp [isDynamicSeg] at hf
      · simp [isDynamicSeg] at hf
    · refine filter_shared_key_le_one ch "optional".toList isOptionalSeg hnodup ?_
      intro p hp hf
      rw [hdisc p hp]
      rcases hseg : RouteNode.segment p.2 with v | name | name | name <;> rw [hseg] at hf
      · simp [isOptionalSeg] at hf
      · simp [isOptionalSeg] at hf
      · simp [isOptionalSeg] at hf
      · rfl
    · refine filter_shared_key_le_one ch "catchAll".toList isCatchAllSeg hnodup ?_
      intro p hp hf
      rw [hdisc p hp]
      rcases hseg : RouteNode.segment p.2 with v | name | name | name <;> rw [hseg] at hf
      · simp [isCatchAllSeg] at hf
      · simp [isCatchAllSeg] at hf
      · rfl
      · simp [isCatchAllSeg] at hf
    · intro p hp
      exact ih p hp

/-- C10: on every route tree reachable by `addRoute` registrations, every node
has at most one dynamic, one optional and one catch-all child (non-static
children are keyed by their type tag); and registering a second route of the
same kind at the same level reuses the existing child node: the later config
wins on the node's `config`, the stored segment — hence the parameter name
bound by future matches — remains the FIRST registration's, and both
registrations' middleware accumulate on the same node. -/
theorem c10_one_child_per_kind_and_last_write_wins :
    (∀ cfgs : List RouteConfig, AtMostOnePerKind (buildTree cfgs)) ∧
    (∀ (n1 n2 : Str) (c1 c2 : RouteConfig),
      insertParsed (insertParsed emptyRouteNode [.dynamic n1] c1) [.dynamic n2] c2 =
        .mk (.static []) none
          [("dynamic".toList,
            .mk (.dynamic n1) (some c2) []
              ((c1.middleware ++ groupMiddleware c1) ++
                (c2.middleware ++ groupMiddleware c2)))] []) := by
  constructor
  · intro cfgs
    exact goodTree_atMostOne _ (buildTree_good cfgs)
  · intro n1 n2 c1 c2
    rfl

/-- Core of C4: in the tree obtained by registering the parsed routes
`ws/v` (all static) and `ws/[n]` (static prefix, dynamic leaf) into any
childless base node, matching the path components `ws ++ [v]` produces exactly
two candidates: the static one (config `cs`, no parameter bound, +100 per
segment) followed by the dynamic one (config `cd`, binding `n := v`, +50 at
the leaf). -/
theorem matchSegments_static_dyn (v n : Str) (cs cd : RouteConfig)
    (hv : v ≠ "dynamic".toList) :
    ∀ (ws : List Str) (seg : RouteSegment) (c0 : Option RouteConfig)
      (mw : List Middleware) (params : List (Str × Str)) (score : Nat),
      matchSegments (ws ++ [v])
        (insertParsed
          (insertParsed (.mk seg c0 [] mw) (ws.map RouteSegment.static ++ [.static v]) cs)
          (ws.map RouteSegment.static ++ [.dynamic n]) cd)
        params score =
      [⟨cs, params, score + 100 * ws.length + 100⟩,
        ⟨cd, objSet params n v, score + 100 * ws.length + 50⟩] := by
  have hv' : v ≠ ['d', 'y', 'n', 'a', 'm', 'i', 'c'] := by
    intro h
    apply hv
    rw [h]
    decide
  intro ws
  induction ws with
  | nil =>
    intro seg c0 mw params score
    simp only [List.map_nil, List.nil_append, List.length_nil, Nat.mul_zero, Nat.add_zero]
    simp [insertParsed, lookupChild, discr, hv', matchSegments, matchEnd,
      RouteNode.children, RouteNode.segment, RouteNode.config]
  | cons w ws' ih =>
    intro seg c0 mw params score
    simp only [List.map_cons, List.cons_append]
    simp only [insertParsed, lookupChild, discr, if_pos rfl]
    simp only [replaceChild, if_pos rfl]
    have hseg2 : (insertParsed
        (insertParsed (.mk (.static w) none [] []) (ws'.map RouteSegment.static ++ [.static v]) cs)
        (ws'.map RouteSegment.static ++ [.dynamic n]) cd).segment = .static w := by
      rw [insertParsed_segment, insertParsed_segment]
      rfl
    simp only [matchSegments, RouteNode.children, hseg2, if_pos rfl, List.map_cons,
      List.map_nil, List.flatten, List.append_nil, List.nil_append]
    rw [ih (.static w) none [] params (score + 100)]
    have h1 : score + 100 + 100 * ws'.length + 100 = score + 100 * (ws'.length + 1) + 100 := by
      ring
    have h2 : score + 100 + 100 * ws'.length + 50 = score + 100 * (ws'.length + 1) + 50 := by
      ring
    simp [h1, h2]

/-- C4 counterexample: with the static leaf literally named `dynamic`, the
claim as stated fails.  Registering `/users/dynamic` and then `/users/[id]`
both succeed, but `addRoute`'s child key (`segment.value` for static segments,
the type tag for the others) collides on `dynamic`: the second registration
finds the static child under the key `dynamic` and overwrites its config, so
matching `/users/dynamic` returns the DYNAMIC route's config — not the static
route's match; in the reverse registration order the only match binds
`id = "dynamic"`, which the claim also forbids. -/
theorem c4_static_literal_dynamic_collision_counterexample :
    (addRoute emptyRouteNode { path := "/users/dynamic".toList }).1 = .ok () ∧
    (addRoute (addRoute emptyRouteNode { path := "/users/dynamic".toList }).2
        { path := "/users/[id]".toList }).1 = .ok () ∧
    matchRoute "/users/dynamic".toList
      (addRoute (addRoute emptyRouteNode { path := "/users/dynamic".toList }).2
          { path := "/users/[id]".toList }).2 =
      some ⟨{ path := "/users/[id]".toList }, [], 200⟩ ∧
    ({ path := "/users/[id]".toList } : RouteConfig) ≠ { path := "/users/dynamic".toList } ∧
    matchRoute "/users/dynamic".toList
      (addRoute (addRoute emptyRouteNode { path := "/users/[id]".toList }).2
          { path := "/users/dynamic".toList }).2 =
      some ⟨{ path := "/users/dynamic".toList }, [("id".toList, "dynamic".toList)], 150⟩ := by
  refine ⟨by rfl, by rfl, by rfl, by decide, by rfl⟩

/-- C4 amended: registering a static route and a dynamic route of the same
shape (a common static prefix `ws`, then the static leaf `v` vs the dynamic
leaf `[n]`), PROVIDED the static leaf is not the literal `dynamic` — the
discriminator key `addRoute` reserves for dynamic children, on which the two
routes would collide into one node (see the counterexample) — matching the
concrete static path returns the static route's match with empty params (no
`n := v` binding) and a score strictly above the dynamic candidate's, which is
also present in the candidate list with the lower score. -/
theorem c4_static_route_beats_dynamic
    (ws : List Str) (v n : Str) (cs cd : RouteConfig) (pathname : Str)
    (hv : v ≠ "dynamic".toList)
    (hcs : parseRoute cs.path = .ok (ws.map RouteSegment.static ++ [.static v]))
    (hcd : parseRoute cd.path = .ok (ws.map RouteSegment.static ++ [.dynamic n]))
    (hpath : pathSegments pathname = ws ++ [v]) :
    matchRoute pathname (addRoute (addRoute emptyRouteNode cs).2 cd).2 =
      some ⟨cs, [], 100 * ws.length + 100⟩ ∧
    matchSegments (ws ++ [v]) (addRoute (addRoute emptyRouteNode cs).2 cd).2 [] 0 =
      [⟨cs, [], 100 * ws.length + 100⟩, ⟨cd, [(n, v)], 100 * ws.length + 50⟩] ∧
    100 * ws.length + 50 < 100 * ws.length + 100 := by
  have htree : (addRoute (addRoute emptyRouteNode cs).2 cd).2 =
      insertParsed
        (insertParsed emptyRouteNode (ws.map RouteSegment.static ++ [.static v]) cs)
        (ws.map RouteSegment.static ++ [.dynamic n]) cd := by
    unfold addRoute
    rw [hcs]
    simp only
    rw [hcd]
  have hms := matchSegments_static_dyn v n cs cd hv ws (.static []) none [] [] 0
  have hm : matchSegments (ws ++ [v]) (addRoute (addRoute emptyRouteNode cs).2 cd).2 [] 0 =
      [⟨cs, [], 100 * ws.length + 100⟩, ⟨cd, [(n, v)], 100 * ws.length + 50⟩] := by
    rw [htree]
    simpa [emptyRouteNode, objSet] using hms
  refine ⟨?_, hm, by omega⟩
  unfold matchRoute matchRouteSegs
  rw [hpath, hm]
  have hlt : ¬((100 * ws.length + 100 : Nat) < 100 * ws.length + 50) := by omega
  simp [sortDesc, insertDesc, hlt]

/-- Witness for C4 at the spec's own example: `/users/me` vs `/users/[id]`,
matching `/users/me`. -/
theorem c4_static_route_beats_dynamic_witness :
    matchRoute "/users/me".toList
      (addRoute (addRoute emptyRouteNode { path := "/users/me".toList }).2
          { path := "/users/[id]".toList }).2 =
      some ⟨{ path := "/users/me".toList }, [], 200⟩ ∧
    matchSegments (["users".toList] ++ ["me".toList])
      (addRoute (addRoute emptyRouteNode { path := "/users/me".toList }).2
          { path := "/users/[id]".toList }).2 [] 0 =
      [⟨{ path := "/users/me".toList }, [], 200⟩,
        ⟨{ path := "/users/[id]".toList }, [("id".toList, "me".toList)], 150⟩] ∧
    (150 : Nat) < 200 := by
  have h := c4_static_route_beats_dynamic ["users".toList] "me".toList "id".toList
    { path := "/users/me".toList } { path := "/users/[id]".toList }
    "/users/me".toList (by decide) (by rfl) (by rfl) (by rfl)
  exact h

end FullJs
